import Mathlib

/-!
Verification of the repository-level sanitization-and-publish pipeline of
repobee-sanitizer (`src/repobee_sanitizer/_sanitize_repo.py`).

The repository state is modelled shallowly: a git repository is a commit
store (commits indexed by position), branch refs, a symbolic HEAD (branch
name), an index tree and a working tree, where trees are association lists
from repository-relative paths to file text.  The git operations the code
invokes (`reset --hard` + `clean -dfx`, `symbolic-ref`, `add .`, `commit`,
`fetch src:dst`) are embedded with their actual git semantics:

* `git commit` refuses to commit when the staged tree equals the current
  branch tip's tree ("nothing to commit"), and creates a parentless root
  commit when HEAD's branch is unborn (the state `symbolic-ref` leaves
  behind when pointed at a branch that does not exist yet);
* `git fetch src:dst` refuses to update the currently checked-out branch,
  and refuses a non-fast-forward update of an existing branch (the refspec
  in the source carries no `+` and no `--force`);
* `repo.head.commit` (GitPython) raises when HEAD is unborn.

The text sanitizer is an opaque pure function `san : String → String`,
exactly as the spec treats it.
-/

namespace RepobeeSanitizer

/-- Association-list lookup keyed on decidable equality (first match wins). -/
def alookup {α β : Type} [DecidableEq α] : List (α × β) → α → Option β
  | [], _ => none
  | (k, v) :: rest, key => if key = k then some v else alookup rest key

/-- A tree: repository-relative path ↦ file text. -/
abbrev FileMap := List (String × String)

/-- Overwrite the entry for `k` with `v` (used only after a successful read,
so `k` is present; entries for other keys are untouched). -/
def fmSet (m : FileMap) (k v : String) : FileMap :=
  m.map (fun p => if p.1 = k then (k, v) else p)

/-- `a` agrees with `b` on every key of `a`. -/
def fmAgreeOn (a b : FileMap) : Bool :=
  a.all (fun p => alookup a p.1 == alookup b p.1)

/-- Extensional tree equality, the comparison git's `commit` performs between
the staged tree and the tip's tree. -/
def fmEquiv (a b : FileMap) : Bool :=
  fmAgreeOn a b && fmAgreeOn b a

/-- A commit object: at most one parent (the pipeline never merges) and a
snapshot tree. -/
structure Commit where
  parent : Option Nat
  tree : FileMap
deriving DecidableEq

/-- A git repository with a working tree.  `objects` is the commit store
(a commit's id is its position), `refs` the branch refs, `headRef` the
branch name HEAD symbolically points at (the code only ever manipulates
symbolic HEADs), `index` the staged tree and `worktree` the on-disk files
(tracked and untracked alike). -/
structure Repo where
  objects : List Commit
  refs : List (String × Nat)
  headRef : String
  index : FileMap
  worktree : FileMap
deriving DecidableEq

/-- Errors raised by the underlying git/filesystem operations (GitPython
raises on any non-zero git exit; `pathlib` raises on a failed read). -/
inductive GitErr where
  | unbornHead
  | readFileErr
  | nothingToCommit
  | missingObject
  | fetchCheckedOut
  | fetchNonFastForward
  | fetchObjects
deriving DecidableEq

/-- The commit HEAD resolves to, if the checked-out branch has one. -/
def headCommit (r : Repo) : Option Commit :=
  match alookup r.refs r.headRef with
  | none => none
  | some i => r.objects[i]?

/-- Update (or create) a branch ref. -/
def setRef (refs : List (String × Nat)) (b : String) (v : Nat) : List (String × Nat) :=
  (b, v) :: refs.filter (fun p => p.1 != b)

/-- `isAncestorFuel objects fuel anc cur`: walking first parents from `cur`
reaches `anc` within `fuel` steps. -/
def isAncestorFuel (objects : List Commit) : Nat → Nat → Nat → Bool
  | 0, _, _ => false
  | fuel + 1, anc, cur =>
    anc == cur ||
      match objects[cur]? with
      | none => false
      | some c =>
        match c.parent with
        | none => false
        | some p => isAncestorFuel objects fuel anc p

/-- `anc` is reachable from `cur` by following first parents (fast-forward
check of `git fetch`). -/
def isAncestor (objects : List Commit) (anc cur : Nat) : Bool :=
  isAncestorFuel objects (objects.length + 1) anc cur

/-- The destination's object store embeds into the source's with the same
ids (always true for a fetch from a scratch copy of the destination). -/
def objectsShared (dst src : List Commit) : Bool :=
  decide (dst = src.take dst.length)

/-- `_clean_repo`: `git reset --hard` (fails on an unborn HEAD) followed by
`git clean -dfx`; working tree and index end up exactly at HEAD's tree. -/
def clean_repo (r : Repo) : Except GitErr Repo :=
  match headCommit r with
  | none => .error .unbornHead
  | some c => .ok { r with index := c.tree, worktree := c.tree }

/-- `_sanitize_files`: for each listed path in order, read `basedir/relpath`,
sanitize, and write back in place.  A failed read aborts, keeping the
writes already performed (deliberate partial-failure behaviour). -/
def sanitize_files (san : String → String) (tree : FileMap) :
    List String → FileMap × Option GitErr
  | [] => (tree, none)
  | p :: ps =>
    match alookup tree p with
    | none => (tree, some .readFileErr)
    | some txt => sanitize_files san (fmSet tree p (san txt)) ps

/-- `_git_commit_on_branch`: `git symbolic-ref HEAD refs/heads/<target>`,
`git add . --force`, `git commit -m ...`.  If the commit step fails the
repointed HEAD and refreshed index remain (they already happened). -/
def git_commit_on_branch (r : Repo) (target : String) : Repo × Option GitErr :=
  match alookup r.refs target with
  | some tipId =>
    match r.objects[tipId]? with
    | none => ({ r with headRef := target, index := r.worktree }, some .missingObject)
    | some tip =>
      if fmEquiv r.worktree tip.tree then
        ({ r with headRef := target, index := r.worktree }, some .nothingToCommit)
      else
        ({ r with
            headRef := target
            index := r.worktree
            objects := r.objects ++ [⟨some tipId, r.worktree⟩]
            refs := setRef r.refs target r.objects.length }, none)
  | none =>
    if fmEquiv r.worktree [] then
      ({ r with headRef := target, index := r.worktree }, some .nothingToCommit)
    else
      ({ r with
          headRef := target
          index := r.worktree
          objects := r.objects ++ [⟨none, r.worktree⟩]
          refs := setRef r.refs target r.objects.length }, none)

/-- `_git_fetch`: `git fetch file://<src> <srcBranch>:<dstBranch>` run in
`dst`.  Plain (unforced) refspec: git refuses to update the checked-out
branch and refuses non-fast-forward updates of an existing branch; a
successful fetch transfers the missing objects and moves only the one
ref. -/
def git_fetch (src : Repo) (srcBranch : String) (dst : Repo) (dstBranch : String) :
    Except GitErr Repo :=
  match alookup src.refs srcBranch with
  | none => .error .missingObject
  | some tip =>
    if dstBranch = dst.headRef then .error .fetchCheckedOut
    else if ! objectsShared dst.objects src.objects then .error .fetchObjects
    else
      match alookup dst.refs dstBranch with
      | none => .ok { dst with objects := src.objects, refs := setRef dst.refs dstBranch tip }
      | some old =>
        if isAncestor src.objects old tip then
          .ok { dst with objects := src.objects, refs := setRef dst.refs dstBranch tip }
        else .error .fetchNonFastForward

/-- `_sanitize_to_target_branch`: copy the repository into a scratch
directory, clean the copy, sanitize in the copy, commit on the target
branch in the copy, fetch the branch back into the original.  Returns the
original repository's final state together with the error that aborted
the run, if any; the scratch copy is discarded unconditionally. -/
def sanitize_to_target_branch (san : String → String) (repo : Repo)
    (file_relpaths : List String) (target_branch : String) : Repo × Option GitErr :=
  match clean_repo repo with
  | .error e => (repo, some e)
  | .ok scratch =>
    match sanitize_files san scratch.worktree file_relpaths with
    | (_, some e) => (repo, some e)
    | (tree, none) =>
      match git_commit_on_branch { scratch with worktree := tree } target_branch with
      | (_, some e) => (repo, some e)
      | (scratch2, none) =>
        match git_fetch scratch2 target_branch repo target_branch with
        | .error e => (repo, some e)
        | .ok repo2 => (repo2, none)

/-- `args.file_list.read_text().strip().split("\n")` with each entry
stripped: Python `str.strip` / `str.split` at character level.
`splitLines` is `split("\n")`: it never returns an empty list. -/
def splitLines : List Char → List (List Char)
  | [] => [[]]
  | c :: cs =>
    if c = '\n' then [] :: splitLines cs
    else
      match splitLines cs with
      | l :: ls => (c :: l) :: ls
      | [] => [[c]]

/-- Python `str.strip` whitespace (the characters relevant to text files). -/
def isSpaceChar (c : Char) : Bool :=
  c = ' ' || c = '\t' || c = '\n' || c = '\r'

/-- Strip leading and trailing whitespace. -/
def trimChars (l : List Char) : List Char :=
  ((l.dropWhile isSpaceChar).reverse.dropWhile isSpaceChar).reverse

/-- The file-list parse performed inline in `_sanitize_repo`. -/
def parseFileList (content : String) : List String :=
  (splitLines (trimChars content.data)).map (fun l => String.mk (trimChars l))

/-- `plug.Status`. -/
inductive Status where
  | OK
  | ERROR
deriving DecidableEq

/-- `plug.Result`. -/
structure PlugResult where
  name : String
  msg : String
  status : Status
deriving DecidableEq

/-- What a `_sanitize_repo` invocation does, seen from the caller:
raise `plug.PlugError`, let a git/IO exception propagate, return an
ERROR-status result, or return `None`. -/
inductive Outcome where
  | raisedPlugErr
  | raisedGitErr (e : GitErr)
  | returned (r : PlugResult)
  | completed
deriving DecidableEq

/-- The parsed command-line arguments.  `file_list = none` models a path
that is not a file; `some c` a file whose text is `c`.  The parser
enforces that exactly one of `target_branch` / `no_commit` is given. -/
structure Args where
  file_list : Option String
  force : Bool
  no_commit : Bool
  target_branch : String
deriving DecidableEq

/-- `repo.head.commit.diff()`: the diff between HEAD's tree and the index. -/
def stagedDiffB (c : Commit) (r : Repo) : Bool :=
  ! fmEquiv c.tree r.index

/-- `repo.untracked_files`: files on disk with no index entry. -/
def untrackedB (r : Repo) : Bool :=
  r.worktree.any (fun p => (alookup r.index p.1).isNone)

/-- `repo.index.diff(None)`: index entries whose working-tree content
differs or whose file is gone. -/
def unstagedB (r : Repo) : Bool :=
  r.index.any (fun p => alookup r.worktree p.1 != some p.2)

/-- `_check_repo_state`: `git.Repo.init` (a no-op on an existing
repository, an auto-init otherwise), then the three checks in order.
`repo.head.commit` raises when the checked-out branch is unborn — an
empty (or just-initialized) repository never gets a verdict. -/
def check_repo_state (r : Repo) : Except GitErr (Option String) :=
  match headCommit r with
  | none => .error .unbornHead
  | some c =>
    if stagedDiffB c r then .ok (some "There are uncommitted staged files in the repo")
    else if untrackedB r then .ok (some "There are untracked files in the repo")
    else if unstagedB r then .ok (some "There are uncommitted unstaged files in the repo")
    else .ok none

/-- `SanitizeRepo._sanitize_repo`, the command facade: file-list existence
check, repository-state check, parse, dispatch on mode. -/
def sanitize_repo (san : String → String) (args : Args) (repo : Repo) :
    Repo × Outcome :=
  match args.file_list with
  | none => (repo, .raisedPlugErr)
  | some content =>
    match check_repo_state repo with
    | .error e => (repo, .raisedGitErr e)
    | .ok message =>
      if message.isSome && ! args.force then
        (repo, .returned ⟨"sanitize-repo", message.getD "", Status.ERROR⟩)
      else
        let file_relpaths := parseFileList content
        if args.no_commit then
          match sanitize_files san repo.worktree file_relpaths with
          | (tree, some e) => ({ repo with worktree := tree }, .raisedGitErr e)
          | (tree, none) => ({ repo with worktree := tree }, .completed)
        else
          match sanitize_to_target_branch san repo file_relpaths args.target_branch with
          | (r2, some e) => (r2, .raisedGitErr e)
          | (r2, none) => (r2, .completed)

/-! ### Lookup lemmas -/

theorem alookup_cons {β : Type} (k : String) (v : β) (rest : List (String × β)) (key : String) :
    alookup ((k, v) :: rest) key = if key = k then some v else alookup rest key := rfl

theorem alookup_setRef_self (refs : List (String × Nat)) (b : String) (v : Nat) :
    alookup (setRef refs b v) b = some v := by
  simp [setRef, alookup_cons]

theorem alookup_filter_ne (refs : List (String × Nat)) (b b' : String) (h : b' ≠ b) :
    alookup (refs.filter (fun p => p.1 != b)) b' = alookup refs b' := by
  induction refs with
  | nil => rfl
  | cons hd tl ih =>
    obtain ⟨a, v⟩ := hd
    by_cases ha : a = b
    · subst ha
      rw [List.filter_cons]
      simp only [bne_self_eq_false, Bool.false_eq_true, if_false, alookup_cons, ih]
      rw [if_neg h]
    · rw [List.filter_cons]
      have : ((a, v).1 != b) = true := by simpa using ha
      rw [if_pos this, alookup_cons, alookup_cons, ih]

theorem alookup_setRef_ne (refs : List (String × Nat)) (b b' : String) (v : Nat) (h : b' ≠ b) :
    alookup (setRef refs b v) b' = alookup refs b' := by
  rw [setRef, alookup_cons, if_neg h, alookup_filter_ne refs b b' h]

theorem fmSet_cons_eq (a b k v : String) (tl : FileMap) (h : a = k) :
    fmSet ((a, b) :: tl) k v = (k, v) :: fmSet tl k v := by
  subst h
  simp only [fmSet, List.map_cons]
  congr 1

theorem fmSet_cons_ne (a b k v : String) (tl : FileMap) (h : ¬ a = k) :
    fmSet ((a, b) :: tl) k v = (a, b) :: fmSet tl k v := by
  simp only [fmSet, List.map_cons, h, if_false]

theorem alookup_fmSet_ne (m : FileMap) (k k' v : String) (h : k' ≠ k) :
    alookup (fmSet m k v) k' = alookup m k' := by
  induction m with
  | nil => rfl
  | cons hd tl ih =>
    obtain ⟨a, b⟩ := hd
    by_cases ha : a = k
    · rw [fmSet_cons_eq a b k v tl ha, alookup_cons, alookup_cons, if_neg h, ih]
      subst ha
      rw [if_neg h]
    · rw [fmSet_cons_ne a b k v tl ha, alookup_cons, alookup_cons, ih]

theorem alookup_fmSet_self (m : FileMap) (k v : String) (h : (alookup m k).isSome) :
    alookup (fmSet m k v) k = some v := by
  induction m with
  | nil => simp [alookup] at h
  | cons hd tl ih =>
    obtain ⟨a, b⟩ := hd
    by_cases ha : a = k
    · rw [fmSet_cons_eq a b k v tl ha, alookup_cons, if_pos rfl]
    · have hk : ¬ (k = a) := fun he => ha he.symm
      rw [alookup_cons, if_neg hk] at h
      rw [fmSet_cons_ne a b k v tl ha, alookup_cons, if_neg hk]
      exact ih h

/-! ### Behaviour of the in-place sanitization runner -/
theorem sanitize_files_not_mem (san : String → String) (ps : List String) (tree : FileMap)
    (p : String) (h : p ∉ ps) :
    alookup (sanitize_files san tree ps).1 p = alookup tree p := by
  induction ps generalizing tree with
  | nil => rfl
  | cons q qs ih =>
    have hpq : p ≠ q := by
      intro he
      exact h (he ▸ List.mem_cons_self q qs)
    have hqs : p ∉ qs := fun hm => h (List.mem_cons_of_mem q hm)
    simp only [sanitize_files]
    cases hq : alookup tree q with
    | none => simp only []
    | some txt =>
      simp only []
      rw [ih (fmSet tree q (san txt)) hqs, alookup_fmSet_ne tree q p (san txt) hpq]

theorem sanitize_files_mem (san : String → String) (ps : List String) (tree : FileMap)
    (p : String) (hmem : p ∈ ps) (hnd : ps.Nodup)
    (hok : (sanitize_files san tree ps).2 = none) :
    alookup (sanitize_files san tree ps).1 p = (alookup tree p).map san := by
  induction ps generalizing tree with
  | nil => cases hmem
  | cons q qs ih =>
    simp only [sanitize_files] at hok ⊢
    cases hq : alookup tree q with
    | none =>
      rw [hq] at hok
      cases hok
    | some txt =>
      rw [hq] at hok
      simp only [hq]
      rcases List.mem_cons.mp hmem with he | hm
      · subst he
        have hqs : p ∉ qs := (List.nodup_cons.mp hnd).1
        rw [sanitize_files_not_mem san qs (fmSet tree p (san txt)) p hqs,
            alookup_fmSet_self tree p (san txt) (by rw [hq]; rfl), hq]
        rfl
      · have hnd2 := (List.nodup_cons.mp hnd).2
        have hpq : p ≠ q := by
          rintro rfl
          exact (List.nodup_cons.mp hnd).1 hm
        rw [ih (fmSet tree q (san txt)) hm hnd2 hok,
            alookup_fmSet_ne tree q p (san txt) hpq]

/-! ### Inversion of the individual git steps -/
theorem clean_repo_ok (r scratch : Repo) (h : clean_repo r = .ok scratch) :
    ∃ c, headCommit r = some c ∧ scratch = { r with index := c.tree, worktree := c.tree } := by
  unfold clean_repo at h
  cases hc : headCommit r with
  | none =>
    simp only [hc] at h
    cases h
  | some c =>
    simp only [hc] at h
    cases h
    exact ⟨c, rfl, rfl⟩

theorem git_commit_ok (r : Repo) (t : String) (r2 : Repo)
    (h : git_commit_on_branch r t = (r2, none)) :
    r2 = { r with
      headRef := t
      index := r.worktree
      objects := r.objects ++ [⟨alookup r.refs t, r.worktree⟩]
      refs := setRef r.refs t r.objects.length } := by
  unfold git_commit_on_branch at h
  cases hl : alookup r.refs t with
  | some tipId =>
    simp only [hl] at h
    cases ho : r.objects[tipId]? with
    | none =>
      simp only [ho] at h
      simp at h
    | some tip =>
      simp only [ho] at h
      by_cases he : fmEquiv r.worktree tip.tree = true
      · simp only [if_pos he] at h
        simp at h
      · simp only [if_neg he] at h
        simp only [Prod.mk.injEq] at h
        exact h.1.symm
  | none =>
    simp only [hl] at h
    by_cases he : fmEquiv r.worktree [] = true
    · simp only [if_pos he] at h
      simp at h
    · simp only [if_neg he] at h
      simp only [Prod.mk.injEq] at h
      exact h.1.symm

theorem git_fetch_ok (src : Repo) (sb : String) (dst : Repo) (db : String) (r : Repo)
    (h : git_fetch src sb dst db = .ok r) :
    ∃ tip, alookup src.refs sb = some tip ∧
      db ≠ dst.headRef ∧
      r = { dst with objects := src.objects, refs := setRef dst.refs db tip } := by
  unfold git_fetch at h
  cases hl : alookup src.refs sb with
  | none =>
    simp only [hl] at h
    cases h
  | some tip =>
    simp only [hl] at h
    by_cases hdb : db = dst.headRef
    · simp only [if_pos hdb] at h
      cases h
    · simp only [if_neg hdb] at h
      by_cases hsh : (! objectsShared dst.objects src.objects) = true
      · simp only [if_pos hsh] at h
        cases h
      · simp only [if_neg hsh] at h
        cases ho : alookup dst.refs db with
        | none =>
          simp only [ho] at h
          cases h
          exact ⟨tip, rfl, hdb, rfl⟩
        | some old =>
          simp only [ho] at h
          by_cases ha : isAncestor src.objects old tip = true
          · simp only [if_pos ha] at h
            cases h
            exact ⟨tip, rfl, hdb, rfl⟩
          · simp only [if_neg ha] at h
            cases h

/-! ### Inversion of the commit-mode pipeline -/
/-- A failed commit-mode run leaves the original repository untouched:
every abort happens before the fetch, and a refused fetch performs no
update. -/
theorem sttb_fail (san : String → String) (repo : Repo) (ps : List String) (t : String)
    (r2 : Repo) (e : GitErr)
    (h : sanitize_to_target_branch san repo ps t = (r2, some e)) : r2 = repo := by
  unfold sanitize_to_target_branch at h
  cases hc : clean_repo repo with
  | error e2 =>
    simp only [hc] at h
    exact (Prod.mk.injEq .. |>.mp h).1.symm
  | ok scratch =>
    simp only [hc] at h
    cases hs : sanitize_files san scratch.worktree ps with
    | mk tree err =>
      cases err with
      | some e2 =>
        simp only [hs] at h
        exact (Prod.mk.injEq .. |>.mp h).1.symm
      | none =>
        simp only [hs] at h
        cases hg : git_commit_on_branch { scratch with worktree := tree } t with
        | mk scratch2 err2 =>
          cases err2 with
          | some e2 =>
            simp only [hg] at h
            exact (Prod.mk.injEq .. |>.mp h).1.symm
          | none =>
            simp only [hg] at h
            cases hf : git_fetch scratch2 t repo t with
            | error e2 =>
              simp only [hf] at h
              exact (Prod.mk.injEq .. |>.mp h).1.symm
            | ok repo2 =>
              simp only [hf] at h
              cases h

/-- A successful commit-mode run, unfolded: the repository must have had a
HEAD commit, every listed path was read from HEAD's tree and sanitized,
the target branch was not the checked-out branch, and the only change to
the original repository is one new commit object (tree = the sanitized
HEAD tree, parent = the target branch's previous tip if any) and the
target ref now naming it. -/
theorem sttb_ok (san : String → String) (repo : Repo) (ps : List String) (t : String)
    (r2 : Repo) (h : sanitize_to_target_branch san repo ps t = (r2, none)) :
    ∃ c tree,
      headCommit repo = some c ∧
      sanitize_files san c.tree ps = (tree, none) ∧
      t ≠ repo.headRef ∧
      r2 = { repo with
        objects := repo.objects ++ [⟨alookup repo.refs t, tree⟩]
        refs := setRef repo.refs t repo.objects.length } := by
  unfold sanitize_to_target_branch at h
  cases hc : clean_repo repo with
  | error e2 =>
    simp only [hc] at h
    cases h
  | ok scratch =>
    simp only [hc] at h
    obtain ⟨c, hhead, hscratch⟩ := clean_repo_ok repo scratch hc
    subst hscratch
    cases hs : sanitize_files san c.tree ps with
    | mk tree err =>
      have hs2 : sanitize_files san
          ({ repo with index := c.tree, worktree := c.tree } : Repo).worktree ps = (tree, err) := hs
      cases err with
      | some e2 =>
        simp only [hs2] at h
        cases h
      | none =>
        simp only [hs2] at h
        cases hg : git_commit_on_branch
            { { repo with index := c.tree, worktree := c.tree } with worktree := tree } t with
        | mk scratch2 err2 =>
          cases err2 with
          | some e2 =>
            simp only [hg] at h
            cases h
          | none =>
            simp only [hg] at h
            have hsc2 := git_commit_ok _ t scratch2 hg
            cases hf : git_fetch scratch2 t repo t with
            | error e2 =>
              simp only [hf] at h
              cases h
            | ok repo2 =>
              simp only [hf] at h
              cases h
              obtain ⟨tip, htip, hne, hrepo2⟩ := git_fetch_ok scratch2 t repo t r2 hf
              refine ⟨c, tree, hhead, hs, hne, ?_⟩
              rw [hrepo2, hsc2]
              simp only [alookup_setRef_self]
              have : tip = repo.objects.length := by
                rw [hsc2] at htip
                simp only [alookup_setRef_self] at htip
                exact (Option.some.injEq .. |>.mp htip).symm
              subst this
              rfl

deriving instance DecidableEq for Except

theorem getElem?_append_len {α : Type} (l : List α) (a : α) : (l ++ [a])[l.length]? = some a := by
  induction l with
  | nil => rfl
  | cons hd tl ih => simp [ih]

/-! ### Concrete fixtures (the spec's sample scenario) -/

/-- The sample repository's tracked tree. -/
def sampleTree : FileMap := [("a.txt", "KEEP\nSECRET\nKEEP"), ("b.txt", "other")]

/-- Its only commit. -/
def sampleCommit : Commit := ⟨none, sampleTree⟩

/-- A clean repository: one commit on `develop`, checked out, nothing staged
or untracked. -/
def sampleRepo : Repo := ⟨[sampleCommit], [("develop", 0)], "develop", sampleTree, sampleTree⟩

/-- A concrete sanitizer: redacts the marked line of the sample scenario. -/
def sampleSan : String → String := fun _ => "KEEP\nKEEP"

/-- The original repository after one commit-mode run targeting `pub`. -/
def sampleRepo1 : Repo := (sanitize_to_target_branch sampleSan sampleRepo ["a.txt"] "pub").1

/-- A repository with no commits at all (what `git.Repo.init` leaves behind
for a directory that was not a repository). -/
def emptyRepo : Repo := ⟨[], [], "master", [], []⟩


/-! ### The claims -/

/-- Claim C1: a commit-mode invocation never mutates the original
repository's HEAD reference, working tree or index, and the final fetch
updates no branch ref other than the target branch. -/
theorem claim1_no_head_or_worktree_mutation (san : String → String) (repo : Repo)
    (ps : List String) (t : String) :
    (sanitize_to_target_branch san repo ps t).1.headRef = repo.headRef ∧
    (sanitize_to_target_branch san repo ps t).1.worktree = repo.worktree ∧
    (sanitize_to_target_branch san repo ps t).1.index = repo.index ∧
    ∀ b, b ≠ t → alookup (sanitize_to_target_branch san repo ps t).1.refs b = alookup repo.refs b := by
  cases hr : sanitize_to_target_branch san repo ps t with
  | mk r2 err =>
    cases err with
    | some e =>
      have he := sttb_fail san repo ps t r2 e hr
      subst he
      exact ⟨rfl, rfl, rfl, fun b _ => rfl⟩
    | none =>
      obtain ⟨c, tree, _, _, _, hrec⟩ := sttb_ok san repo ps t r2 hr
      subst hrec
      refine ⟨rfl, rfl, rfl, fun b hb => ?_⟩
      exact alookup_setRef_ne repo.refs t b repo.objects.length hb

/-- Witness for C1 at the sample scenario (target `pub`, other branch
`develop`). -/
theorem claim1_witness :
    (sanitize_to_target_branch sampleSan sampleRepo ["a.txt"] "pub").1.headRef = sampleRepo.headRef ∧
    (sanitize_to_target_branch sampleSan sampleRepo ["a.txt"] "pub").1.worktree = sampleRepo.worktree ∧
    (sanitize_to_target_branch sampleSan sampleRepo ["a.txt"] "pub").1.index = sampleRepo.index ∧
    alookup (sanitize_to_target_branch sampleSan sampleRepo ["a.txt"] "pub").1.refs "develop" =
      alookup sampleRepo.refs "develop" := by
  obtain ⟨h1, h2, h3, h4⟩ := claim1_no_head_or_worktree_mutation sampleSan sampleRepo ["a.txt"] "pub"
  exact ⟨h1, h2, h3, h4 "develop" (by decide)⟩

/-- Claim C2: a successful commit-mode run on a clean repository puts on the
target branch a commit whose tree is exactly HEAD's tree with each listed
file replaced by its sanitized committed text, all other files unchanged. -/
theorem claim2_target_content (san : String → String) (repo : Repo) (ps : List String)
    (t : String) (r2 : Repo) (c : Commit)
    (hok : sanitize_to_target_branch san repo ps t = (r2, none))
    (_hclean : check_repo_state repo = .ok none)
    (hhead : headCommit repo = some c)
    (hnd : ps.Nodup) :
    ∃ i com, alookup r2.refs t = some i ∧ r2.objects[i]? = some com ∧
      (∀ p, p ∈ ps → alookup com.tree p = (alookup c.tree p).map san) ∧
      (∀ p, p ∉ ps → alookup com.tree p = alookup c.tree p) := by
  obtain ⟨c2, tree, hhead2, hsan, hne, hrec⟩ := sttb_ok san repo ps t r2 hok
  rw [hhead] at hhead2
  cases hhead2
  subst hrec
  refine ⟨repo.objects.length, ⟨alookup repo.refs t, tree⟩, ?_, ?_, ?_, ?_⟩
  · exact alookup_setRef_self repo.refs t repo.objects.length
  · exact getElem?_append_len repo.objects _
  · intro p hp
    have := sanitize_files_mem san ps c.tree p hp hnd (by rw [hsan])
    rw [hsan] at this
    exact this
  · intro p hp
    have := sanitize_files_not_mem san ps c.tree p hp
    rw [hsan] at this
    exact this

/-- Witness for C2 at the sample scenario. -/
theorem claim2_witness :
    sanitize_to_target_branch sampleSan sampleRepo ["a.txt"] "pub" = (sampleRepo1, none) ∧
    check_repo_state sampleRepo = .ok none ∧
    headCommit sampleRepo = some sampleCommit ∧
    (["a.txt"] : List String).Nodup ∧
    ∃ i com, alookup sampleRepo1.refs "pub" = some i ∧ sampleRepo1.objects[i]? = some com ∧
      (∀ p, p ∈ (["a.txt"] : List String) →
        alookup com.tree p = (alookup sampleCommit.tree p).map sampleSan) ∧
      (∀ p, p ∉ (["a.txt"] : List String) → alookup com.tree p = alookup sampleCommit.tree p) := by
  refine ⟨by decide, by decide, by decide, by decide, ?_⟩
  exact claim2_target_content sampleSan sampleRepo ["a.txt"] "pub" sampleRepo1 sampleCommit
    (by decide) (by decide) (by decide) (by decide)

/-- Claim C3: if any step of the commit-mode pipeline fails, the original
repository is left entirely unchanged — same refs, HEAD, index and
working tree. -/
theorem claim3_failure_leaves_original_unchanged (san : String → String) (repo : Repo)
    (ps : List String) (t : String) (e : GitErr)
    (h : (sanitize_to_target_branch san repo ps t).2 = some e) :
    (sanitize_to_target_branch san repo ps t).1 = repo := by
  cases hr : sanitize_to_target_branch san repo ps t with
  | mk r2 err =>
    rw [hr] at h
    cases h
    exact sttb_fail san repo ps t r2 e hr

/-- Witness for C3: a listed file absent from HEAD's tree aborts the run at
the sanitize step and the original repository is returned untouched. -/
theorem claim3_witness :
    (sanitize_to_target_branch sampleSan sampleRepo ["missing.txt"] "pub").2 =
      some GitErr.readFileErr ∧
    (sanitize_to_target_branch sampleSan sampleRepo ["missing.txt"] "pub").1 = sampleRepo := by
  refine ⟨by decide, ?_⟩
  exact claim3_failure_leaves_original_unchanged sampleSan sampleRepo ["missing.txt"] "pub"
    GitErr.readFileErr (by decide)

/-- A dirty variant of the sample repository: a staged edit, an unstaged
edit and an untracked file all at once, HEAD commit unchanged. -/
def dirtySampleRepo : Repo :=
  { sampleRepo with
    index := fmSet sampleTree "a.txt" "staged edit"
    worktree := fmSet sampleTree "b.txt" "unstaged edit" ++ [("untracked.txt", "new")] }

/-- The verdict `_check_repo_state` returns on a dirty repository with a
HEAD commit: the first matching message in check order. -/
theorem check_repo_state_dirty (r : Repo) (c : Commit) (hhead : headCommit r = some c)
    (hdirty : (stagedDiffB c r || untrackedB r || unstagedB r) = true) :
    check_repo_state r = .ok (some
      (if stagedDiffB c r then "There are uncommitted staged files in the repo"
       else if untrackedB r then "There are untracked files in the repo"
       else "There are uncommitted unstaged files in the repo")) := by
  unfold check_repo_state
  simp only [hhead]
  by_cases h1 : stagedDiffB c r = true
  · simp [h1]
  · by_cases h2 : untrackedB r = true
    · simp [h1, h2]
    · have h3 : unstagedB r = true := by
        simp only [h1, h2, Bool.false_or] at hdirty
        exact hdirty
      simp [h1, h2, h3]

/-- Claim C4: with the force flag off, any dirtiness makes `_sanitize_repo`
return an ERROR-status result without touching any file, and the message
is the highest-priority applicable one: staged, then untracked, then
unstaged. -/
theorem claim4_dirty_error_priority (san : String → String) (args : Args) (repo : Repo)
    (content : String) (c : Commit)
    (hfl : args.file_list = some content)
    (hforce : args.force = false)
    (hhead : headCommit repo = some c)
    (hdirty : (stagedDiffB c repo || untrackedB repo || unstagedB repo) = true) :
    (sanitize_repo san args repo).1 = repo ∧
    ∃ m, (sanitize_repo san args repo).2 = .returned ⟨"sanitize-repo", m, .ERROR⟩ ∧
      (stagedDiffB c repo = true → m = "There are uncommitted staged files in the repo") ∧
      (stagedDiffB c repo = false → untrackedB repo = true →
        m = "There are untracked files in the repo") ∧
      (stagedDiffB c repo = false → untrackedB repo = false → unstagedB repo = true →
        m = "There are uncommitted unstaged files in the repo") := by
  have hcheck := check_repo_state_dirty repo c hhead hdirty
  have hmain : sanitize_repo san args repo = (repo, .returned ⟨"sanitize-repo",
      (if stagedDiffB c repo then "There are uncommitted staged files in the repo"
       else if untrackedB repo then "There are untracked files in the repo"
       else "There are uncommitted unstaged files in the repo"), .ERROR⟩) := by
    unfold sanitize_repo
    simp only [hfl, hcheck, hforce, Option.isSome_some, Bool.not_false, Bool.and_true, if_true,
      Option.getD_some]
  rw [hmain]
  refine ⟨rfl, _, rfl, ?_, ?_, ?_⟩
  · intro h1
    simp [h1]
  · intro h1 h2
    simp [h1, h2]
  · intro h1 h2 h3
    simp [h1, h2, h3]

/-- Witness for C4: the sample repository with a staged change, an untracked
file and an unstaged edit all present reports the staged-files message. -/
theorem claim4_witness :
    (sanitize_repo sampleSan ⟨some "a.txt", false, true, "pub"⟩ dirtySampleRepo).1 =
      dirtySampleRepo ∧
    (sanitize_repo sampleSan ⟨some "a.txt", false, true, "pub"⟩ dirtySampleRepo).2 =
      .returned ⟨"sanitize-repo", "There are uncommitted staged files in the repo", .ERROR⟩ := by
  obtain ⟨h1, m, h2, h3, _, _⟩ := claim4_dirty_error_priority sampleSan
    ⟨some "a.txt", false, true, "pub"⟩ dirtySampleRepo
    "a.txt" sampleCommit (by decide) (by decide) (by decide) (by decide)
  refine ⟨h1, ?_⟩
  rw [h2, h3 (by decide)]

/-- Claim C5: the target branch's content is a function of the HEAD commit's
tree and the file list alone.  Two commit-mode runs whose HEAD trees and
file lists agree — however their index, untracked files or working trees
differ — produce target commits with identical trees, and each run leaves
its own (possibly dirty) working tree untouched. -/
theorem claim5_target_depends_only_on_head (san : String → String) (r1 r2 : Repo)
    (ps : List String) (t : String) (o1 o2 : Repo) (c1 c2 : Commit)
    (h1 : sanitize_to_target_branch san r1 ps t = (o1, none))
    (h2 : sanitize_to_target_branch san r2 ps t = (o2, none))
    (hc1 : headCommit r1 = some c1) (hc2 : headCommit r2 = some c2)
    (htree : c1.tree = c2.tree) :
    (∃ i1 com1 i2 com2,
      alookup o1.refs t = some i1 ∧ o1.objects[i1]? = some com1 ∧
      alookup o2.refs t = some i2 ∧ o2.objects[i2]? = some com2 ∧
      com1.tree = com2.tree) ∧
    o1.worktree = r1.worktree ∧ o2.worktree = r2.worktree := by
  obtain ⟨d1, tree1, hd1, hs1, _, hrec1⟩ := sttb_ok san r1 ps t o1 h1
  obtain ⟨d2, tree2, hd2, hs2, _, hrec2⟩ := sttb_ok san r2 ps t o2 h2
  rw [hc1] at hd1
  cases hd1
  rw [hc2] at hd2
  cases hd2
  have htt : tree1 = tree2 := by
    rw [htree] at hs1
    rw [hs1] at hs2
    exact (Prod.mk.injEq .. |>.mp hs2).1
  subst hrec1
  subst hrec2
  refine ⟨⟨r1.objects.length, ⟨alookup r1.refs t, tree1⟩,
           r2.objects.length, ⟨alookup r2.refs t, tree2⟩, ?_, ?_, ?_, ?_, ?_⟩, rfl, rfl⟩
  · exact alookup_setRef_self r1.refs t r1.objects.length
  · exact getElem?_append_len r1.objects _
  · exact alookup_setRef_self r2.refs t r2.objects.length
  · exact getElem?_append_len r2.objects _
  · exact htt

/-- Witness for C5: the clean sample repository and its heavily dirty
variant share their HEAD commit; both commit-mode runs succeed, the target
trees coincide, and the dirty working tree survives unchanged. -/
theorem claim5_witness :
    sanitize_to_target_branch sampleSan sampleRepo ["a.txt"] "pub" = (sampleRepo1, none) ∧
    (sanitize_to_target_branch sampleSan dirtySampleRepo ["a.txt"] "pub").2 = none ∧
    (∃ i1 com1 i2 com2,
      alookup sampleRepo1.refs "pub" = some i1 ∧ sampleRepo1.objects[i1]? = some com1 ∧
      alookup (sanitize_to_target_branch sampleSan dirtySampleRepo ["a.txt"] "pub").1.refs
        "pub" = some i2 ∧
      (sanitize_to_target_branch sampleSan dirtySampleRepo ["a.txt"] "pub").1.objects[i2]? =
        some com2 ∧
      com1.tree = com2.tree) ∧
    (sanitize_to_target_branch sampleSan dirtySampleRepo ["a.txt"] "pub").1.worktree =
      dirtySampleRepo.worktree := by
  have hdirty2 : (sanitize_to_target_branch sampleSan dirtySampleRepo ["a.txt"] "pub").2 =
      none := by decide
  obtain ⟨hcontent, hwt1, hwt2⟩ := claim5_target_depends_only_on_head sampleSan
    sampleRepo dirtySampleRepo ["a.txt"] "pub" sampleRepo1 _
    sampleCommit sampleCommit
    (by decide) (by rw [← hdirty2]) (by decide) (by decide) rfl
  exact ⟨by decide, hdirty2, hcontent, hwt2⟩

/-- Counterexample to claim C6 as stated: in the sample scenario the target
branch `pub` does not exist, the run succeeds, the prior HEAD commit is
commit 0 — yet the new commit on `pub` has no parent at all (a root
commit), not the prior HEAD commit: `symbolic-ref` onto a nonexistent
branch leaves HEAD unborn, and `git commit` then creates a parentless
commit. -/
theorem claim6_counterexample :
    alookup sampleRepo.refs "pub" = none ∧
    alookup sampleRepo.refs sampleRepo.headRef = some 0 ∧
    (sanitize_to_target_branch sampleSan sampleRepo ["a.txt"] "pub").2 = none ∧
    alookup (sanitize_to_target_branch sampleSan sampleRepo ["a.txt"] "pub").1.refs "pub" =
      some 1 ∧
    ((sanitize_to_target_branch sampleSan sampleRepo ["a.txt"] "pub").1.objects[1]?).map
      Commit.parent = some none ∧
    (some (none : Option Nat) : Option (Option Nat)) ≠ some (some 0) := by decide

/-- Claim C6 as amended: the parent of the commit created on the target
branch is the target branch's previous tip when that branch already
existed; when it did not exist the commit has no parent (it is a root
commit whose tree still derives from the prior HEAD), not the prior HEAD
commit. -/
theorem claim6_amended_parent (san : String → String) (repo : Repo) (ps : List String)
    (t : String) (r2 : Repo)
    (hok : sanitize_to_target_branch san repo ps t = (r2, none)) :
    ∃ i com, alookup r2.refs t = some i ∧ r2.objects[i]? = some com ∧
      com.parent = alookup repo.refs t := by
  obtain ⟨c, tree, _, _, _, hrec⟩ := sttb_ok san repo ps t r2 hok
  subst hrec
  exact ⟨repo.objects.length, ⟨alookup repo.refs t, tree⟩,
    alookup_setRef_self repo.refs t repo.objects.length,
    getElem?_append_len repo.objects _, rfl⟩

/-- Witness for the amended C6: on a repository where `pub` already exists
at commit 0 the new commit's parent is commit 0; on the sample repository
(no `pub`) the new commit's parent is `none`. -/
theorem claim6_amended_witness :
    (∃ i com,
      alookup (sanitize_to_target_branch sampleSan
        { sampleRepo with refs := [("develop", 0), ("pub", 0)] } ["a.txt"] "pub").1.refs
        "pub" = some i ∧
      (sanitize_to_target_branch sampleSan
        { sampleRepo with refs := [("develop", 0), ("pub", 0)] } ["a.txt"] "pub").1.objects[i]? =
        some com ∧
      com.parent = alookup ({ sampleRepo with refs := [("develop", 0), ("pub", 0)] } : Repo).refs
        "pub") ∧
    (∃ i com,
      alookup (sanitize_to_target_branch sampleSan sampleRepo ["a.txt"] "pub").1.refs "pub" =
        some i ∧
      (sanitize_to_target_branch sampleSan sampleRepo ["a.txt"] "pub").1.objects[i]? =
        some com ∧
      com.parent = alookup sampleRepo.refs "pub") := by
  have hex : (sanitize_to_target_branch sampleSan
      { sampleRepo with refs := [("develop", 0), ("pub", 0)] } ["a.txt"] "pub").2 = none := by
    decide
  have hnew : (sanitize_to_target_branch sampleSan sampleRepo ["a.txt"] "pub").2 = none := by
    decide
  constructor
  · exact claim6_amended_parent sampleSan
      { sampleRepo with refs := [("develop", 0), ("pub", 0)] } ["a.txt"] "pub" _ (by rw [← hex])
  · exact claim6_amended_parent sampleSan sampleRepo ["a.txt"] "pub" _ (by rw [← hnew])

/-- Counterexample to claim C7 as stated: invoking commit mode twice in
succession (repository untouched in between) does not put a second
commit on the target branch.  The second run re-sanitizes the same HEAD
tree, so the tree staged by `git add` equals the target tip's tree and
`git commit` exits non-zero ("nothing to commit"); the invocation aborts
and the branch tip remains the first invocation's commit (id 1), the
object store unchanged. -/
theorem claim7_counterexample :
    (sanitize_to_target_branch sampleSan sampleRepo ["a.txt"] "pub").2 = none ∧
    (sanitize_to_target_branch sampleSan sampleRepo1 ["a.txt"] "pub").2 =
      some GitErr.nothingToCommit ∧
    (sanitize_to_target_branch sampleSan sampleRepo1 ["a.txt"] "pub").1 = sampleRepo1 ∧
    alookup sampleRepo1.refs "pub" = some 1 ∧
    sampleRepo1.objects.length = 2 := by decide

/-- Claim C7 as amended: take two commit-mode invocations with the same
target branch, the repository possibly modified in between but the target
branch itself left alone.  When the second invocation succeeds (it fails
with "nothing to commit" whenever its sanitized tree equals the tip's
tree, in particular always when the repository was not touched at all),
the target branch tip is the second invocation's freshly created commit,
and the ref update is a fast-forward: that commit's parent is exactly the
first invocation's commit. -/
theorem claim7_amended_second_run (san : String → String) (repo rMid : Repo)
    (ps ps2 : List String) (t : String) (r1 r2 : Repo)
    (h1 : sanitize_to_target_branch san repo ps t = (r1, none))
    (hmid : alookup rMid.refs t = alookup r1.refs t)
    (h2 : sanitize_to_target_branch san rMid ps2 t = (r2, none)) :
    alookup r2.refs t = some rMid.objects.length ∧
    (∃ com2, r2.objects[rMid.objects.length]? = some com2 ∧
      com2.parent = some repo.objects.length) ∧
    alookup r1.refs t = some repo.objects.length := by
  obtain ⟨c1, tree1, _, _, _, hrec1⟩ := sttb_ok san repo ps t r1 h1
  obtain ⟨c2, tree2, _, _, _, hrec2⟩ := sttb_ok san rMid ps2 t r2 h2
  subst hrec2
  have hr1refs : alookup r1.refs t = some repo.objects.length := by
    rw [hrec1]
    exact alookup_setRef_self repo.refs t repo.objects.length
  refine ⟨alookup_setRef_self rMid.refs t rMid.objects.length,
    ⟨⟨alookup rMid.refs t, tree2⟩, getElem?_append_len rMid.objects _, ?_⟩, hr1refs⟩
  rw [hmid, hr1refs]

/-- A sanitizer distinguishing the two marked texts of the C7 scenario
(it redacts the secret line, keeping the surrounding lines). -/
def markedSan : String → String := fun s =>
  if s = "KEEP\nSECRET\nKEEP" then "KEEP\nKEEP"
  else if s = "KEEPX\nSECRET\nKEEPX" then "KEEPX\nKEEPX"
  else s

/-- The original repository after a first commit-mode run with `markedSan`. -/
def pubRepo1 : Repo := (sanitize_to_target_branch markedSan sampleRepo ["a.txt"] "pub").1

/-- `pubRepo1` after the user commits an edit of `a.txt` on `develop`
(commit id 2), leaving the `pub` branch alone. -/
def pubRepo1Advanced : Repo :=
  { pubRepo1 with
    objects := pubRepo1.objects ++ [⟨some 0, fmSet sampleTree "a.txt" "KEEPX\nSECRET\nKEEPX"⟩]
    refs := setRef pubRepo1.refs "develop" 2
    index := fmSet sampleTree "a.txt" "KEEPX\nSECRET\nKEEPX"
    worktree := fmSet sampleTree "a.txt" "KEEPX\nSECRET\nKEEPX" }

/-- Witness for the amended C7: with HEAD advanced between the runs the
second invocation succeeds; the tip of `pub` is its fresh commit (id 3)
whose parent is the first invocation's commit (id 1). -/
theorem claim7_amended_witness :
    (sanitize_to_target_branch markedSan sampleRepo ["a.txt"] "pub").2 = none ∧
    alookup pubRepo1Advanced.refs "pub" = alookup pubRepo1.refs "pub" ∧
    (sanitize_to_target_branch markedSan pubRepo1Advanced ["a.txt"] "pub").2 = none ∧
    alookup
      (sanitize_to_target_branch markedSan pubRepo1Advanced ["a.txt"] "pub").1.refs "pub" =
      some pubRepo1Advanced.objects.length ∧
    (∃ com2,
      (sanitize_to_target_branch markedSan pubRepo1Advanced ["a.txt"] "pub").1.objects[
        pubRepo1Advanced.objects.length]? = some com2 ∧
      com2.parent = some sampleRepo.objects.length) := by
  have hfst : (sanitize_to_target_branch markedSan sampleRepo ["a.txt"] "pub").2 = none := by
    decide
  have hsnd : (sanitize_to_target_branch markedSan pubRepo1Advanced ["a.txt"] "pub").2 =
      none := by decide
  obtain ⟨hc1, hc2, _⟩ := claim7_amended_second_run markedSan sampleRepo pubRepo1Advanced
    ["a.txt"] ["a.txt"] "pub" pubRepo1 _
    (by rw [← hfst]; rfl) (by decide) (by rw [← hsnd])
  exact ⟨hfst, by decide, hsnd, hc1, hc2⟩

/-- Counterexample to claim C8 as stated: Python `str.split` never returns
an empty list, so parsing an empty backing file yields `[""]`, not an
empty path list; the runner then resolves the empty entry to the
repository root itself, whose read fails, raising an IOError instead of
reading and writing nothing. -/
theorem claim8_counterexample :
    parseFileList "" = [""] ∧
    parseFileList "" ≠ [] ∧
    (sanitize_repo sampleSan ⟨some "", false, true, "pub"⟩ sampleRepo).2 =
      .raisedGitErr GitErr.readFileErr ∧
    (sanitize_repo sampleSan ⟨some "", false, true, "pub"⟩ sampleRepo).1 = sampleRepo := by
  decide

/-- Claim C8 as amended: an existing but empty or whitespace-only file list
parses, without error, to the single entry `""` (never to an empty list);
a dry run then fails reading the path that entry resolves to (the
repository root, which has no file entry), so the invocation raises an
IOError after writing no file — the repository is unchanged. -/
theorem claim8_amended_empty_list (san : String → String) (args : Args) (repo : Repo)
    (content : String)
    (hc : trimChars content.data = [])
    (hfl : args.file_list = some content)
    (hnc : args.no_commit = true)
    (hstate : check_repo_state repo = .ok none)
    (hroot : alookup repo.worktree "" = none) :
    parseFileList content = [""] ∧
    (sanitize_repo san args repo).2 = .raisedGitErr GitErr.readFileErr ∧
    (sanitize_repo san args repo).1 = repo := by
  have hparse : parseFileList content = [""] := by
    unfold parseFileList
    rw [hc]
    rfl
  have hmain : sanitize_repo san args repo = (repo, .raisedGitErr GitErr.readFileErr) := by
    unfold sanitize_repo
    simp only [hfl, hstate, Option.isSome_none, Bool.false_and, Bool.false_eq_true, if_false,
      hparse, hnc, if_true, sanitize_files, hroot]
  rw [hmain]
  exact ⟨hparse, rfl, rfl⟩

/-- Witness for the amended C8: a whitespace-only file list on the sample
repository. -/
theorem claim8_amended_witness :
    parseFileList " \n\t " = [""] ∧
    (sanitize_repo sampleSan ⟨some " \n\t ", false, true, "pub"⟩ sampleRepo).2 =
      .raisedGitErr GitErr.readFileErr ∧
    (sanitize_repo sampleSan ⟨some " \n\t ", false, true, "pub"⟩ sampleRepo).1 = sampleRepo :=
  claim8_amended_empty_list sampleSan ⟨some " \n\t ", false, true, "pub"⟩ sampleRepo " \n\t "
    (by decide) rfl rfl (by decide) (by decide)

/-- Claim C9: a file-list path that is not a file makes `_sanitize_repo`
raise `plug.PlugError` immediately, for every repository state whatsoever
— in particular before the repository-state validation (which would
itself raise on some of those states) and before any file or ref is
touched. -/
theorem claim9_missing_file_list (san : String → String) (args : Args) (repo : Repo)
    (h : args.file_list = none) :
    sanitize_repo san args repo = (repo, .raisedPlugErr) := by
  unfold sanitize_repo
  rw [h]

/-- Witness for C9: a repository with no commits at all, on which the state
check itself would raise — the missing file list still wins, the
repository is untouched. -/
theorem claim9_witness :
    sanitize_repo sampleSan ⟨none, false, false, "pub"⟩ emptyRepo =
      (emptyRepo, .raisedPlugErr) ∧
    check_repo_state emptyRepo = .error GitErr.unbornHead :=
  ⟨claim9_missing_file_list sampleSan ⟨none, false, false, "pub"⟩ emptyRepo rfl, by decide⟩

/-- Claim C10: `_check_repo_state` yields a verdict exactly when the
repository has a HEAD commit.  With an unborn HEAD (empty repository,
including a directory the check just auto-initialized) accessing
`repo.head.commit` raises, so no verdict — neither a dirtiness reason nor
a clean pass — is ever returned; with a HEAD commit it always returns a
verdict. -/
theorem claim10_check_requires_commit (r : Repo) :
    (headCommit r = none → check_repo_state r = .error GitErr.unbornHead) ∧
    (∀ c, headCommit r = some c → ∃ v, check_repo_state r = .ok v) := by
  constructor
  · intro h
    simp only [check_repo_state, h]
  · intro c h
    simp only [check_repo_state, h]
    by_cases h1 : stagedDiffB c r = true <;> by_cases h2 : untrackedB r = true <;>
      by_cases h3 : unstagedB r = true <;> simp [h1, h2, h3]

/-- Witness for C10: the empty repository gets no verdict (the check
raises); the sample repository gets one. -/
theorem claim10_witness :
    headCommit emptyRepo = none ∧
    check_repo_state emptyRepo = .error GitErr.unbornHead ∧
    headCommit sampleRepo = some sampleCommit ∧
    ∃ v, check_repo_state sampleRepo = .ok v :=
  ⟨by decide, (claim10_check_requires_commit emptyRepo).1 (by decide), by decide,
    (claim10_check_requires_commit sampleRepo).2 sampleCommit (by decide)⟩

end RepobeeSanitizer
